import Mathlib

/-!
Verification of the core logic of `src/main.py` (Telegram Docker log bot).

Text is modelled as `List Char` (Python `str` is a sequence of code points),
raw byte payloads as `List Nat`, wall-clock times as `ℚ` (Python floats in the
source; no claim here depends on rounding of floating point), and the
`int(time.time())` cursor as `ℤ`.

Each definition carries a comment pointing at the source lines it embeds.
-/

namespace DockerBot

/-- `LOG_POLL_INTERVAL = float(os.getenv("LOG_POLL_INTERVAL", "1"))` (main.py:44). -/
def LOG_POLL_INTERVAL : ℚ := 1

/-- `STREAM_RATE_LIMIT = float(os.getenv("STREAM_RATE_LIMIT", "2"))` (main.py:45). -/
def STREAM_RATE_LIMIT : ℚ := 2

/-- `MAX_LINES_PER_MSG = int(os.getenv("MAX_LINES_PER_MSG", "10"))` (main.py:46). -/
def MAX_LINES_PER_MSG : Nat := 10

/-- `MAX_MESSAGE_CHUNK = 3900` (main.py:47). -/
def MAX_MESSAGE_CHUNK : Nat := 3900

/-- Accumulator for `splitlines`: walk the text, cutting a segment at every
`'\n'`.  Models Python `str.splitlines()` restricted to `'\n'` line
boundaries (the only line separator the bot's texts contain); like Python, a
trailing `'\n'` does not open a final empty line. -/
def splitlinesAux : List Char → List Char → List (List Char)
  | [], cur => if cur.isEmpty then [] else [cur]
  | c :: rest, cur =>
    if c = '\n' then cur :: splitlinesAux rest []
    else splitlinesAux rest (cur ++ [c])

/-- Python `text.splitlines()` (used at main.py:174 and main.py:281). -/
def splitlines (text : List Char) : List (List Char) :=
  splitlinesAux text []

/-- Python `"\n".join(xs)` (main.py:181, main.py:187, main.py:285). -/
def joinNl : List (List Char) → List Char
  | [] => []
  | [l] => l
  | l :: ls => l ++ '\n' :: joinNl ls

/-- The loop of `split_long_message` (main.py:178-188): `lines` still to
process, `cur`/`cur_len` the line group being accumulated and its running
`len(ln) + 1` total, `chunks` the finished chunks.  Mirrors

    for ln in lines:
        lnlen = len(ln) + 1
        if cur_len + lnlen > max_chunk and cur:
            chunks.append("\n".join(cur)); cur = []; cur_len = 0
        cur.append(ln); cur_len += lnlen
    if cur:
        chunks.append("\n".join(cur))
-/
def chunksAux (max_chunk : Nat) :
    List (List Char) → List (List Char) → Nat → List (List Char) → List (List Char)
  | [], cur, _, chunks => if cur.isEmpty then chunks else chunks ++ [joinNl cur]
  | ln :: rest, cur, cur_len, chunks =>
    let lnlen := ln.length + 1
    if cur_len + lnlen > max_chunk ∧ ¬ cur.isEmpty then
      chunksAux max_chunk rest [ln] lnlen (chunks ++ [joinNl cur])
    else
      chunksAux max_chunk rest (cur ++ [ln]) (cur_len + lnlen) chunks

/-- `split_long_message(text, max_chunk=MAX_MESSAGE_CHUNK)` (main.py:170-188).
The `max_chunk` cap is kept as the explicit parameter it is in the source. -/
def split_long_message (text : List Char) (max_chunk : Nat) : List (List Char) :=
  if text.length ≤ max_chunk then [text]
  else chunksAux max_chunk (splitlines text) [] 0 []

/-- Python `str.strip()`'s whitespace class, restricted to the ASCII
whitespace characters that occur in decoded log output. -/
def isPyWs (c : Char) : Bool :=
  c = ' ' || c = '\t' || c = '\n' || c = '\r' || c = '\x0b' || c = '\x0c'

/-- Python `str.strip()` (main.py:278): drop leading and trailing whitespace. -/
def stripWs (l : List Char) : List Char :=
  ((l.dropWhile isPyWs).reverse.dropWhile isPyWs).reverse

/-- The Unicode replacement character U+FFFD produced by
`bytes.decode(errors="replace")`. -/
def replacementChar : Char := '�'

/-- Continuation byte test `0x80 ≤ b ≤ 0xBF`. -/
def utf8Cont (b : Nat) : Bool := 0x80 ≤ b && b ≤ 0xBF

/-- Second-byte range for a three-byte lead `b1` (excludes overlong forms and
UTF-16 surrogates, as CPython's decoder does). -/
def utf8Cont2 (b1 b2 : Nat) : Bool :=
  if b1 = 0xE0 then 0xA0 ≤ b2 && b2 ≤ 0xBF
  else if b1 = 0xED then 0x80 ≤ b2 && b2 ≤ 0x9F
  else utf8Cont b2

/-- Second-byte range for a four-byte lead `b1` (excludes overlong forms and
code points above U+10FFFF, as CPython's decoder does). -/
def utf8Cont3 (b1 b2 : Nat) : Bool :=
  if b1 = 0xF0 then 0x90 ≤ b2 && b2 ≤ 0xBF
  else if b1 = 0xF4 then 0x80 ≤ b2 && b2 ≤ 0x8F
  else utf8Cont b2

/-- `raw.decode(errors="replace")` (main.py:253, main.py:278, main.py:429):
UTF-8 decoding where an invalid sequence is replaced by U+FFFD (one
replacement per maximal invalid subpart, as in CPython) and decoding is total
— it never raises. -/
def pyDecodeReplace : List Nat → List Char
  | [] => []
  | b1 :: rest =>
    if b1 < 0x80 then Char.ofNat b1 :: pyDecodeReplace rest
    else if b1 < 0xC2 then replacementChar :: pyDecodeReplace rest
    else if b1 ≤ 0xDF then
      match h2 : rest with
      | [] => [replacementChar]
      | b2 :: rest2 =>
        if utf8Cont b2 then
          Char.ofNat ((b1 - 0xC0) * 64 + (b2 - 0x80)) :: pyDecodeReplace rest2
        else replacementChar :: pyDecodeReplace rest
    else if b1 ≤ 0xEF then
      match h2 : rest with
      | [] => [replacementChar]
      | b2 :: rest2 =>
        if utf8Cont2 b1 b2 then
          match h3 : rest2 with
          | [] => [replacementChar]
          | b3 :: rest3 =>
            if utf8Cont b3 then
              Char.ofNat ((b1 - 0xE0) * 4096 + (b2 - 0x80) * 64 + (b3 - 0x80)) ::
                pyDecodeReplace rest3
            else replacementChar :: pyDecodeReplace rest2
        else replacementChar :: pyDecodeReplace rest
    else if b1 ≤ 0xF4 then
      match h2 : rest with
      | [] => [replacementChar]
      | b2 :: rest2 =>
        if utf8Cont3 b1 b2 then
          match h3 : rest2 with
          | [] => [replacementChar]
          | b3 :: rest3 =>
            if utf8Cont b3 then
              match h4 : rest3 with
              | [] => [replacementChar]
              | b4 :: rest4 =>
                if utf8Cont b4 then
                  Char.ofNat ((b1 - 0xF0) * 262144 + (b2 - 0x80) * 4096 +
                      (b3 - 0x80) * 64 + (b4 - 0x80)) :: pyDecodeReplace rest4
                else replacementChar :: pyDecodeReplace rest3
            else replacementChar :: pyDecodeReplace rest2
        else replacementChar :: pyDecodeReplace rest
    else replacementChar :: pyDecodeReplace rest
termination_by l => l.length
decreasing_by all_goals simp_all <;> omega

/-- Lines a raw poll result contributes to the session buffer
(main.py:277-282):

    if raw:
        decoded = raw.decode(errors="replace").strip()
        if decoded:
            for ln in decoded.splitlines():
                buffer.append(ln)

(`raw` empty decodes and strips to the empty text, so the outer `if raw:`
is subsumed by the inner emptiness test). -/
def processRaw (raw : List Nat) : List (List Char) :=
  let decoded := stripWs (pyDecodeReplace raw)
  if decoded.isEmpty then [] else splitlines decoded

/-- The flush predicate of the streaming loop (main.py:284):
`buffer and (len(buffer) >= MAX_LINES_PER_MSG or (time.time() - last_sent) >= STREAM_RATE_LIMIT)`. -/
def should_flush (buffer : List (List Char)) (now last_sent : ℚ) : Bool :=
  !buffer.isEmpty &&
    (decide (MAX_LINES_PER_MSG ≤ buffer.length) ||
     decide (STREAM_RATE_LIMIT ≤ now - last_sent))

/-- The mutable local state of one streaming worker
(`_start_stream_for_chat`, main.py:264-266): the `int(time.time())` poll
cursor, the list of buffered lines, and the time of the last send. -/
structure StreamSt where
  last_ts : ℤ
  buffer : List (List Char)
  last_sent : ℚ
deriving DecidableEq

/-- Outcome of one `container.logs(since=...)` call (main.py:271): the raw
bytes, or the exception text when the read raises. -/
inductive ReadResult where
  | ok (raw : List Nat)
  | err (e : List Char)
deriving DecidableEq

/-- The text of the message sent from the `except Exception` branch of the
read (main.py:273): `f"Error reading logs: {e}"`. -/
def readErrorNotice (e : List Char) : List Char :=
  "Error reading logs: ".data ++ e

/-- The stop notice sent from the `except asyncio.CancelledError` handler
(main.py:295): `"🛑 Stream stopped."`. -/
def stopNotice : List Char := "🛑 Stream stopped.".data

/-- The message sent from the outer `except Exception` handler
(main.py:299): `f"Stream terminated due to error: {e}"`. -/
def streamTerminatedNotice (e : List Char) : List Char :=
  "Stream terminated due to error: ".data ++ e

/-- One iteration of the streaming loop body (main.py:268-292), given the
result of the `container.logs` read and the wall-clock time `now` of this
iteration.  Returns the texts handed to `bot.send_message` (each chunk is
additionally wrapped in `<pre>…</pre>` markup on the wire, main.py:288 —
presentation only, not modelled) and `some` updated state, or `none` when the
loop exits (`break` on a read error, main.py:274, after which the coroutine
ends with no further flush). -/
def streamIterate (st : StreamSt) (r : ReadResult) (now : ℚ) :
    List (List Char) × Option StreamSt :=
  match r with
  | .err e => ([readErrorNotice e], none)
  | .ok raw =>
    let st1 : StreamSt := { st with last_ts := now.floor }
    let buf := st1.buffer ++ processRaw raw
    if should_flush buf now st1.last_sent then
      (split_long_message (joinNl buf) MAX_MESSAGE_CHUNK,
       some { st1 with buffer := [], last_sent := now })
    else
      ([], some { st1 with buffer := buf })

/-- The `except asyncio.CancelledError` path of the worker (main.py:293-296):
a fixed stop notice is sent, the exception is re-raised and the coroutine
ends.  The buffered lines play no role in the handler; no drain happens. -/
def onCancelled (st : StreamSt) : List (List Char) × Option StreamSt :=
  ([stopNotice], none)

/-- The outer `except Exception` path of the worker (main.py:297-299),
entered e.g. when a `bot.send_message` delivery inside the loop raises: the
error is logged, a termination notice is attempted, and the coroutine ends.
The buffered/drained payload plays no role in the handler. -/
def onStreamException (st : StreamSt) (e : List Char) :
    List (List Char) × Option StreamSt :=
  ([streamTerminatedNotice e], none)

/-- Events in the second-start path of `cmd_stream` (main.py:316-327) and of
the `stream:` callback (main.py:441-451). -/
inductive StartEvent where
  | cancelOld
  | oldStopped
  | createNew
  | newRunning
deriving DecidableEq, BEq

/-- Event order of a start request for a chat that may already own a stream
(main.py:316-327 / main.py:443-451):

    existing = active_streams.get(chat.id)
    if existing:
        existing_task = existing.get("task")
        if existing_task and not existing_task.done():
            existing_task.cancel()
            await context.bot.send_message(chat.id, "Stopping existing stream...")
            await asyncio.sleep(0.2)
    task = asyncio.create_task(_start_stream_for_chat(chat.id, container, context))
    active_streams[chat.id] = {...}

`existingActive = some done` models a registry entry whose task reports
`done()` as `done`; `none` models no entry.  `cancel()` only requests
cancellation; the old task's `CancelledError` cleanup itself awaits a network
send (main.py:295), so whether it completes during the fixed 0.2 s grace
sleep is a property of the scheduler and the network, modelled by the
schedule input `oldStopsInGrace`; nothing in the code awaits the old task.
When the old task is still cleaning up after the grace sleep, the event loop
may run the new task's first steps before the old task's last
(`newRunsFirst`). -/
def secondStart (existingActive : Option Bool) (oldStopsInGrace newRunsFirst : Bool) :
    List StartEvent :=
  match existingActive with
  | none => [.createNew, .newRunning]
  | some done =>
    if done then [.createNew, .newRunning]
    else
      .cancelOld ::
        (if oldStopsInGrace then [.oldStopped, .createNew, .newRunning]
         else if newRunsFirst then [.createNew, .newRunning, .oldStopped]
         else [.createNew, .oldStopped, .newRunning])

/-- `active_streams[chat_id] = entry` (main.py:327 / main.py:451): assignment
into a dict keyed by chat id, modelled on association lists that may be read
by key.  After the assignment the key holds exactly the new entry. -/
def dictSet (m : List (ℤ × ℤ)) (k v : ℤ) : List (ℤ × ℤ) :=
  (k, v) :: m.filter (fun p => decide (p.1 ≠ k))

/-- `authorized(user_id)` (main.py:130-134):

    if not ALLOWED_USERS:
        return False
    return user_id in ALLOWED_USERS

with `ALLOWED_USERS : set[int]` and `user_id : Optional[int]` (`None in s`
is `False` for a set of ints). -/
def authorized (allowed : Finset ℤ) (user_id : Option ℤ) : Bool :=
  if allowed = ∅ then false
  else
    match user_id with
    | none => false
    | some u => decide (u ∈ allowed)

/-! ### Lemmas about `splitlines` and `joinNl` -/

lemma splitlinesAux_no_nl :
    ∀ (l cur : List Char), (∀ c ∈ l, c ≠ '\n') →
      splitlinesAux l cur = if (cur ++ l).isEmpty then [] else [cur ++ l]
  | [], cur, _ => by simp [splitlinesAux]
  | c :: t, cur, h => by
    have hc : c ≠ '\n' := h c (by simp)
    rw [splitlinesAux, if_neg hc, splitlinesAux_no_nl t (cur ++ [c]) (fun x hx => h x (by simp [hx]))]
    simp

lemma splitlines_no_nl (l : List Char) (h : ∀ c ∈ l, c ≠ '\n') (hne : l ≠ []) :
    splitlines l = [l] := by
  rw [splitlines, splitlinesAux_no_nl l [] h]
  simp [hne]

lemma splitlinesAux_append_nl :
    ∀ (l : List Char), (∀ c ∈ l, c ≠ '\n') → ∀ (cur s : List Char),
      splitlinesAux (l ++ '\n' :: s) cur = (cur ++ l) :: splitlinesAux s []
  | [], _, cur, s => by simp [splitlinesAux]
  | c :: t, h, cur, s => by
    have hc : c ≠ '\n' := h c (by simp)
    rw [List.cons_append, splitlinesAux, if_neg hc,
      splitlinesAux_append_nl t (fun x hx => h x (by simp [hx])) (cur ++ [c]) s]
    simp

lemma splitlines_append_nl (l : List Char) (h : ∀ c ∈ l, c ≠ '\n') (s : List Char) :
    splitlines (l ++ '\n' :: s) = l :: splitlines s := by
  rw [splitlines, splitlinesAux_append_nl l h [] s]
  simp [splitlines]

lemma splitlinesAux_mem_no_nl :
    ∀ (text cur : List Char), ('\n' : Char) ∉ cur →
      ∀ l ∈ splitlinesAux text cur, ('\n' : Char) ∉ l
  | [], cur, hcur => by
    intro l hl
    rw [splitlinesAux] at hl
    split at hl <;> simp_all
  | c :: t, cur, hcur => by
    intro l hl
    rw [splitlinesAux] at hl
    by_cases hc : c = '\n'
    · rw [if_pos hc] at hl
      rcases List.mem_cons.1 hl with h | h
      · exact h ▸ hcur
      · exact splitlinesAux_mem_no_nl t [] (by simp) l h
    · rw [if_neg hc] at hl
      exact splitlinesAux_mem_no_nl t (cur ++ [c]) (by simp [hcur, Ne.symm hc]) l hl

lemma splitlines_mem_no_nl (text : List Char) :
    ∀ l ∈ splitlines text, ('\n' : Char) ∉ l :=
  splitlinesAux_mem_no_nl text [] (by simp)

lemma joinNl_cons (x : List Char) (l : List (List Char)) (h : l ≠ []) :
    joinNl (x :: l) = x ++ '\n' :: joinNl l := by
  cases l with
  | nil => exact absurd rfl h
  | cons a t => rfl

lemma splitlines_joinNl :
    ∀ (L : List (List Char)), (∀ l ∈ L, ('\n' : Char) ∉ l) → L.getLast? ≠ some [] →
      splitlines (joinNl L) = L
  | [], _, _ => by simp [joinNl, splitlines, splitlinesAux]
  | [l], h, hlast => by
    have hne : l ≠ [] := by
      intro hl
      exact hlast (by simp [hl])
    simpa [joinNl] using splitlines_no_nl l (fun c hc hcn => h l (by simp) (hcn ▸ hc)) hne
  | l :: a :: t, h, hlast => by
    rw [joinNl_cons l (a :: t) (by simp),
      splitlines_append_nl l (fun c hc hcn => h l (by simp) (hcn ▸ hc)),
      splitlines_joinNl (a :: t) (fun x hx => h x (by simp [hx]))
        (by rwa [List.getLast?_cons_cons] at hlast)]

lemma joinNl_append :
    ∀ (a b : List (List Char)), a ≠ [] → b ≠ [] →
      joinNl (a ++ b) = joinNl a ++ '\n' :: joinNl b
  | [], _, ha, _ => absurd rfl ha
  | [x], b, _, hb => by rw [List.singleton_append, joinNl_cons x b hb]; rfl
  | x :: y :: t, b, _, hb => by
    rw [List.cons_append, joinNl_cons x ((y :: t) ++ b) (by simp),
      joinNl_append (y :: t) b (by simp) hb, joinNl_cons x (y :: t) (by simp)]
    simp

lemma joinNl_flatten :
    ∀ (gs : List (List (List Char))), (∀ g ∈ gs, g ≠ []) →
      joinNl (gs.map joinNl) = joinNl gs.flatten
  | [], _ => rfl
  | [g], _ => by simp [joinNl]
  | g :: g2 :: t, h => by
    have hg : g ≠ [] := h g (by simp)
    have hflat : (List.flatten (g2 :: t)) ≠ [] := by
      have hg2 : g2 ≠ [] := h g2 (by simp)
      rw [List.flatten_cons]
      intro hc
      exact hg2 (List.append_eq_nil.1 hc).1
    calc joinNl ((g :: g2 :: t).map joinNl)
        = joinNl (joinNl g :: (g2 :: t).map joinNl) := rfl
      _ = joinNl g ++ '\n' :: joinNl ((g2 :: t).map joinNl) := joinNl_cons _ _ (by simp)
      _ = joinNl g ++ '\n' :: joinNl (g2 :: t).flatten := by
            rw [joinNl_flatten (g2 :: t) (fun x hx => h x (by simp [hx]))]
      _ = joinNl (g ++ (g2 :: t).flatten) := (joinNl_append g ((g2 :: t).flatten) hg hflat).symm
      _ = joinNl (g :: g2 :: t).flatten := by simp

/-! ### Lemmas about the chunking loop -/

/-- The quantity the source tracks in `cur_len`: `sum(len(ln) + 1 for ln in cur)`. -/
def curLenSum (cur : List (List Char)) : Nat :=
  (cur.map (fun l => l.length + 1)).sum

lemma curLenSum_nil : curLenSum [] = 0 := rfl

lemma curLenSum_append_singleton (cur : List (List Char)) (ln : List Char) :
    curLenSum (cur ++ [ln]) = curLenSum cur + (ln.length + 1) := by
  simp [curLenSum]

lemma joinNl_length :
    ∀ (cur : List (List Char)), cur ≠ [] → (joinNl cur).length + 1 = curLenSum cur
  | [l], _ => by simp [joinNl, curLenSum]
  | l :: a :: t, _ => by
    have ih := joinNl_length (a :: t) (by simp)
    rw [joinNl_cons l (a :: t) (by simp)]
    simp only [curLenSum, List.map_cons, List.sum_cons, List.length_append,
      List.length_cons] at *
    omega

lemma chunksAux_chunk_bound (max_chunk : Nat) (orig : List (List Char)) :
    ∀ (lines cur chunks : List (List Char)),
      (∀ l ∈ lines, l ∈ orig) →
      (cur = [] ∨ (joinNl cur).length ≤ max_chunk ∨ ∃ l ∈ orig, cur = [l]) →
      (∀ c ∈ chunks, c.length ≤ max_chunk ∨ c ∈ orig) →
      ∀ c ∈ chunksAux max_chunk lines cur (curLenSum cur) chunks,
        c.length ≤ max_chunk ∨ c ∈ orig
  | [], cur, chunks, _, hcur, hchunks => by
    intro c hc
    rw [chunksAux] at hc
    split at hc
    · exact hchunks c hc
    · rcases List.mem_append.1 hc with h | h
      · exact hchunks c h
      · have hc2 : c = joinNl cur := by simpa using h
        subst hc2
        rcases hcur with h1 | h1 | ⟨l, hl, h1⟩
        · simp_all
        · exact Or.inl h1
        · subst h1
          exact Or.inr (by simpa [joinNl] using hl)
  | ln :: rest, cur, chunks, hlines, hcur, hchunks => by
    intro c hc
    rw [chunksAux] at hc
    by_cases hcond : curLenSum cur + (ln.length + 1) > max_chunk ∧ ¬ cur.isEmpty
    · rw [if_pos hcond] at hc
      have hrec := chunksAux_chunk_bound max_chunk orig rest [ln] (chunks ++ [joinNl cur])
        (fun l hl => hlines l (by simp [hl]))
        (Or.inr (Or.inr ⟨ln, hlines ln (by simp), rfl⟩))
        (by
          intro x hx
          rcases List.mem_append.1 hx with h | h
          · exact hchunks x h
          · have hx2 : x = joinNl cur := by simpa using h
            subst hx2
            rcases hcur with h1 | h1 | ⟨l, hl, h1⟩
            · rw [h1] at hcond; simp at hcond
            · exact Or.inl h1
            · subst h1
              exact Or.inr (by simpa [joinNl] using hl))
      have hlen : curLenSum [ln] = ln.length + 1 := by simp [curLenSum]
      rw [← hlen] at hc
      exact hrec c hc
    · rw [if_neg hcond] at hc
      have hrec := chunksAux_chunk_bound max_chunk orig rest (cur ++ [ln]) chunks
        (fun l hl => hlines l (by simp [hl]))
        (by
          by_cases hnil : cur = []
          · subst hnil
            exact Or.inr (Or.inr ⟨ln, hlines ln (by simp), by simp⟩)
          · have hle : curLenSum cur + (ln.length + 1) ≤ max_chunk := by
              rcases not_and_or.1 hcond with h | h
              · omega
              · exact absurd (List.isEmpty_iff.1 (not_not.1 h)) hnil
            have hjl := joinNl_length (cur ++ [ln]) (by simp)
            rw [curLenSum_append_singleton] at hjl
            exact Or.inr (Or.inl (by omega)))
        hchunks
      rw [← curLenSum_append_singleton] at hc
      exact hrec c hc

lemma chunksAux_partition (max_chunk : Nat) :
    ∀ (lines cur : List (List Char)) (cur_len : Nat) (chunks : List (List Char)),
      ∃ gs : List (List (List Char)),
        (∀ g ∈ gs, g ≠ []) ∧ gs.flatten = cur ++ lines ∧
        chunksAux max_chunk lines cur cur_len chunks = chunks ++ gs.map joinNl
  | [], cur, cur_len, chunks => by
    by_cases hnil : cur = []
    · subst hnil
      exact ⟨[], by simp, by simp, by simp [chunksAux]⟩
    · refine ⟨[cur], by simp [hnil], by simp, ?_⟩
      rw [chunksAux, if_neg (by simpa [List.isEmpty_iff] using hnil)]
      simp
  | ln :: rest, cur, cur_len, chunks => by
    by_cases hcond : cur_len + (ln.length + 1) > max_chunk ∧ ¬ cur.isEmpty
    · obtain ⟨gs1, hne, hflat, heq⟩ :=
        chunksAux_partition max_chunk rest [ln] (ln.length + 1) (chunks ++ [joinNl cur])
      have hcur : cur ≠ [] := by
        intro h
        rw [h] at hcond
        simp at hcond
      refine ⟨cur :: gs1, ?_, ?_, ?_⟩
      · intro g hg
        rcases List.mem_cons.1 hg with h | h
        · exact h ▸ hcur
        · exact hne g h
      · rw [List.flatten_cons, hflat]
        simp
      · rw [chunksAux, if_pos hcond, heq]
        simp
    · obtain ⟨gs1, hne, hflat, heq⟩ :=
        chunksAux_partition max_chunk rest (cur ++ [ln]) (cur_len + (ln.length + 1)) chunks
      refine ⟨gs1, hne, ?_, ?_⟩
      · rw [hflat]
        simp
      · rw [chunksAux, if_neg hcond, heq]

/-! ### Lemmas about stripping and blank lines -/

lemma dropWhile_head_false {p : Char → Bool} :
    ∀ {l : List Char} {a : Char} {t : List Char}, l.dropWhile p = a :: t → p a = false
  | [], a, t, h => by simp [List.dropWhile] at h
  | c :: rest, a, t, h => by
    rw [List.dropWhile_cons] at h
    by_cases hp : p c
    · rw [if_pos hp] at h
      exact dropWhile_head_false h
    · rw [if_neg hp] at h
      cases h
      exact Bool.eq_false_iff.2 hp

lemma stripWs_getLast_not_ws {d : List Char} {c : Char}
    (h : (stripWs d).getLast? = some c) : isPyWs c = false := by
  rw [stripWs, List.getLast?_reverse] at h
  rcases he : ((d.dropWhile isPyWs).reverse.dropWhile isPyWs) with _ | ⟨a, t⟩
  · rw [he] at h
    simp at h
  · rw [he] at h
    have ha : a = c := by simpa using h
    exact ha ▸ dropWhile_head_false he

lemma splitlinesAux_ne_nil :
    ∀ (s cur : List Char), s ≠ [] → splitlinesAux s cur ≠ []
  | [], _, h => absurd rfl h
  | c :: t, cur, _ => by
    rw [splitlinesAux]
    by_cases hc : c = '\n'
    · rw [if_pos hc]
      simp
    · rw [if_neg hc]
      rcases ht : t with _ | ⟨x, xs⟩
      · rw [splitlinesAux]
        simp
      · exact splitlinesAux_ne_nil (x :: xs) (cur ++ [c]) (by simp)

lemma splitlinesAux_getLast_ne_nil :
    ∀ (s cur : List Char) (c : Char), s.getLast? = some c → c ≠ '\n' →
      ∀ g, (splitlinesAux s cur).getLast? = some g → g ≠ []
  | [], _, c, hlast, _, g => by simp at hlast
  | [x], cur, c, hlast, hc, g => by
    have hx : x = c := by simpa using hlast
    subst hx
    rw [splitlinesAux, if_neg hc, splitlinesAux]
    intro hg
    have : cur ++ [x] = g := by
      have hne : (cur ++ [x]).isEmpty = false := by simp
      rw [hne] at hg
      simpa using hg
    intro hgnil
    rw [hgnil] at this
    simp at this
  | x :: y :: t, cur, c, hlast, hc, g => by
    have hlast2 : (y :: t).getLast? = some c := by
      rwa [List.getLast?_cons_cons] at hlast
    rw [splitlinesAux]
    by_cases hx : x = '\n'
    · rw [if_pos hx]
      intro hg
      rcases hr : splitlinesAux (y :: t) [] with _ | ⟨r, rs⟩
      · exact absurd hr (splitlinesAux_ne_nil (y :: t) [] (by simp))
      · rw [hr, List.getLast?_cons_cons] at hg
        exact splitlinesAux_getLast_ne_nil (y :: t) [] c hlast2 hc g (hr ▸ hg)
    · rw [if_neg hx]
      exact splitlinesAux_getLast_ne_nil (y :: t) (cur ++ [x]) c hlast2 hc g

/-! ### Lemmas about the flush predicate -/

lemma flush_denied {buffer : List (List Char)} {now last_sent : ℚ}
    (hcount : buffer.length < MAX_LINES_PER_MSG)
    (htime : now - last_sent < STREAM_RATE_LIMIT) :
    should_flush buffer now last_sent = false := by
  rw [should_flush, decide_eq_false (not_le.2 hcount), decide_eq_false (not_le.2 htime)]
  simp

lemma flush_by_count {buffer : List (List Char)} {now last_sent : ℚ}
    (hcount : MAX_LINES_PER_MSG ≤ buffer.length) :
    should_flush buffer now last_sent = true := by
  have hne : buffer.isEmpty = false := by
    rcases buffer with _ | ⟨a, t⟩
    · rw [MAX_LINES_PER_MSG] at hcount
      simp at hcount
    · simp
  rw [should_flush, hne, decide_eq_true hcount]
  simp

lemma chunksAux_nil (max_chunk : Nat) (cur : List (List Char)) (cur_len : Nat)
    (chunks : List (List Char)) :
    chunksAux max_chunk [] cur cur_len chunks =
      if cur.isEmpty then chunks else chunks ++ [joinNl cur] := rfl

lemma chunksAux_cons (max_chunk : Nat) (ln : List Char) (rest cur : List (List Char))
    (cur_len : Nat) (chunks : List (List Char)) :
    chunksAux max_chunk (ln :: rest) cur cur_len chunks =
      if cur_len + (ln.length + 1) > max_chunk ∧ ¬ cur.isEmpty then
        chunksAux max_chunk rest [ln] (ln.length + 1) (chunks ++ [joinNl cur])
      else
        chunksAux max_chunk rest (cur ++ [ln]) (cur_len + (ln.length + 1)) chunks := rfl

/-! ### Claim theorems -/

/-- C6: the flush decision (main.py:284) is false on an empty buffer no
matter how much time has elapsed since the last send, and it is true as soon
as the buffered line count reaches `MAX_LINES_PER_MSG` (default 10), even
when `STREAM_RATE_LIMIT` has not elapsed (the time arguments are universally
quantified, so in particular for `now - last_sent` arbitrarily large in the
first part and arbitrarily small in the second). -/
theorem C6_should_flush :
    (∀ now last_sent : ℚ, should_flush [] now last_sent = false) ∧
    (∀ (buffer : List (List Char)) (now last_sent : ℚ),
      MAX_LINES_PER_MSG ≤ buffer.length → should_flush buffer now last_sent = true) :=
  ⟨fun _ _ => by rw [should_flush]; simp,
   fun _ _ _ hcount => flush_by_count hcount⟩

/-- Witness for C6 at concrete inputs: an empty buffer does not flush even
50 time units after the last send, and ten one-character lines flush with no
elapsed time at all. -/
theorem C6_should_flush_witness :
    should_flush [] 100 50 = false ∧
    (MAX_LINES_PER_MSG ≤ (List.replicate 10 ['a']).length ∧
      should_flush (List.replicate 10 ['a']) 0 0 = true) :=
  ⟨C6_should_flush.1 100 50,
   by rw [MAX_LINES_PER_MSG]; simp,
   C6_should_flush.2 (List.replicate 10 ['a']) 0 0 (by rw [MAX_LINES_PER_MSG]; simp)⟩

/-- C10: `authorized` (main.py:130-134) returns true exactly when
`ALLOWED_USERS` is non-empty and the given user id is one of its members; in
particular with an empty `ALLOWED_USERS` it denies every requester. -/
theorem C10_authorized :
    ∀ (allowed : Finset ℤ) (user_id : Option ℤ),
      authorized allowed user_id = true ↔
        allowed ≠ ∅ ∧ ∃ u, user_id = some u ∧ u ∈ allowed := by
  intro allowed user_id
  unfold authorized
  by_cases h : allowed = ∅
  · rw [if_pos h]
    simp [h]
  · rw [if_neg h]
    cases user_id with
    | none => simp [h]
    | some u => simp [h]

/-- C7 counterexample: a buffer whose accumulated character length (1001)
exceeds the claimed `max_bytes` threshold of ~1000, with fewer than
`MAX_LINES_PER_MSG` lines and no elapsed time, does NOT flush — the flush
condition at main.py:284 has no byte-length disjunct, so the claim is false
at this input. -/
theorem C7_byte_threshold_cex :
    1000 ≤ (joinNl [List.replicate 1001 'a']).length ∧
    ([List.replicate 1001 'a'] : List (List Char)).length < MAX_LINES_PER_MSG ∧
    should_flush [List.replicate 1001 'a'] 0 0 = false := by
  refine ⟨?_, ?_, ?_⟩
  · rw [show joinNl [List.replicate 1001 'a'] = List.replicate 1001 'a' from rfl,
      List.length_replicate]
    norm_num
  · rw [MAX_LINES_PER_MSG, List.length_singleton]
    norm_num
  · exact flush_denied (by rw [MAX_LINES_PER_MSG, List.length_singleton]; norm_num)
      (by rw [STREAM_RATE_LIMIT]; norm_num)

/-- C7 amended: the flush decision (main.py:284) has no byte-size condition
at all.  It is false whenever the buffered line count is below
`MAX_LINES_PER_MSG` and less than `STREAM_RATE_LIMIT` has elapsed since the
last send, regardless of the buffer's accumulated character length. -/
theorem C7_byte_threshold_amended :
    ∀ (buffer : List (List Char)) (now last_sent : ℚ),
      buffer.length < MAX_LINES_PER_MSG → now - last_sent < STREAM_RATE_LIMIT →
      should_flush buffer now last_sent = false :=
  fun _ _ _ hcount htime => flush_denied hcount htime

/-- Witness for the amended C7 at a concrete input: a single 5000-character
line (far above any ~1000-byte threshold) does not flush when no time has
elapsed. -/
theorem C7_byte_threshold_amended_witness :
    ([List.replicate 5000 'a'] : List (List Char)).length < MAX_LINES_PER_MSG ∧
    (0 : ℚ) - 0 < STREAM_RATE_LIMIT ∧
    should_flush [List.replicate 5000 'a'] 0 0 = false :=
  ⟨by rw [MAX_LINES_PER_MSG, List.length_singleton]; norm_num,
   by rw [STREAM_RATE_LIMIT]; norm_num,
   C7_byte_threshold_amended [List.replicate 5000 'a'] 0 0
     (by rw [MAX_LINES_PER_MSG, List.length_singleton]; norm_num)
     (by rw [STREAM_RATE_LIMIT]; norm_num)⟩

/-- C2 counterexample: an iteration of the streaming loop whose flush is
denied by the rate limit (three buffered lines, one time unit since the last
send, so neither condition at main.py:284 holds).  The loop sends no message
at all — no compact notice — and retains the full buffer, oldest lines
included: nothing is collapsed to a trailing window.  This contradicts the
claimed collapse-and-notify behaviour. -/
theorem C2_rate_denied_cex :
    (streamIterate ⟨0, [['a'], ['b'], ['c']], 0⟩ (ReadResult.ok []) 1).1 = [] ∧
    ((streamIterate ⟨0, [['a'], ['b'], ['c']], 0⟩ (ReadResult.ok []) 1).2.map
        StreamSt.buffer) = some [['a'], ['b'], ['c']] := by
  have hraw : processRaw [] = [] := by simp [processRaw, pyDecodeReplace, stripWs]
  have hsf : should_flush [['a'], ['b'], ['c']] 1 0 = false :=
    flush_denied (by rw [MAX_LINES_PER_MSG]; simp)
      (by rw [STREAM_RATE_LIMIT]; norm_num)
  rw [streamIterate]
  simp [hraw, hsf]

/-- C2 amended: when the flush condition at main.py:284 denies delivery
(fewer than `MAX_LINES_PER_MSG` buffered lines and less than
`STREAM_RATE_LIMIT` since the last send), the iteration sends nothing and
retains the entire buffer — old lines appended before the new ones — for a
later flush.  There is no token bucket, no trailing-window collapse, and no
compact notice in the code. -/
theorem C2_rate_denied_amended :
    ∀ (st : StreamSt) (raw : List Nat) (now : ℚ),
      (st.buffer ++ processRaw raw).length < MAX_LINES_PER_MSG →
      now - st.last_sent < STREAM_RATE_LIMIT →
      (streamIterate st (ReadResult.ok raw) now).1 = [] ∧
      (streamIterate st (ReadResult.ok raw) now).2 =
        some ⟨now.floor, st.buffer ++ processRaw raw, st.last_sent⟩ := by
  intro st raw now hcount htime
  rw [streamIterate]
  simp [flush_denied hcount htime]

/-- Witness for the amended C2 at a concrete input: one buffered line, an
empty poll result, one time unit elapsed. -/
theorem C2_rate_denied_amended_witness :
    (([['a']] : List (List Char)) ++ processRaw []).length < MAX_LINES_PER_MSG ∧
    (1 : ℚ) - 0 < STREAM_RATE_LIMIT ∧
    (streamIterate ⟨0, [['a']], 0⟩ (ReadResult.ok []) 1).1 = [] ∧
    (streamIterate ⟨0, [['a']], 0⟩ (ReadResult.ok []) 1).2 =
      some ⟨(1 : ℚ).floor, [['a']] ++ processRaw [], 0⟩ :=
  ⟨by simp [processRaw, pyDecodeReplace, stripWs, MAX_LINES_PER_MSG],
   by rw [STREAM_RATE_LIMIT]; norm_num,
   (C2_rate_denied_amended ⟨0, [['a']], 0⟩ [] 1
     (by simp [processRaw, pyDecodeReplace, stripWs, MAX_LINES_PER_MSG])
     (by rw [STREAM_RATE_LIMIT]; norm_num)).1,
   (C2_rate_denied_amended ⟨0, [['a']], 0⟩ [] 1
     (by simp [processRaw, pyDecodeReplace, stripWs, MAX_LINES_PER_MSG])
     (by rw [STREAM_RATE_LIMIT]; norm_num)).2⟩

/-- C4 counterexample: a session cancelled with one line `"x"` still in its
buffer sends only the fixed stop notice (main.py:293-296).  The buffered line
appears in no outgoing message, and the output is not the drained payload
the claim requires — there is no final drain-plus-deliver cycle. -/
theorem C4_stop_flush_cex :
    (onCancelled ⟨0, [['x']], 0⟩).1 = [stopNotice] ∧
    ['x'] ∉ (onCancelled ⟨0, [['x']], 0⟩).1 ∧
    (onCancelled ⟨0, [['x']], 0⟩).1 ≠
      split_long_message (joinNl [['x']]) MAX_MESSAGE_CHUNK := by
  refine ⟨rfl, ?_, ?_⟩ <;> decide

/-- C4 amended: on cancellation the worker sends only the fixed stop notice,
independent of whatever is buffered, and the coroutine ends with no final
drain; likewise, a read error makes the loop send only the error notice and
`break` out (main.py:271-274), again dropping the buffer without a final
flush. -/
theorem C4_stop_flush_amended :
    ∀ (st st2 : StreamSt) (e : List Char) (now : ℚ),
      (onCancelled st).1 = (onCancelled st2).1 ∧
      (onCancelled st).2 = none ∧
      (streamIterate st (ReadResult.err e) now).1 = [readErrorNotice e] ∧
      (streamIterate st (ReadResult.err e) now).2 = none :=
  fun _ _ _ _ => ⟨rfl, rfl, rfl, rfl⟩

/-- C5 counterexample: when a delivery raises, control reaches the outer
`except Exception` handler (main.py:297-299), whose result is termination
(`none`): the worker loop does NOT continue, contradicting the claim that the
session keeps running after a failed send.  The pending payload `"p"` appears
in no outgoing message. -/
theorem C5_delivery_failure_cex :
    (onStreamException ⟨0, [['p']], 0⟩ ['E']).2 = none ∧
    ['p'] ∉ (onStreamException ⟨0, [['p']], 0⟩ ['E']).1 := by
  refine ⟨rfl, ?_⟩
  decide

/-- C5 amended: a Sink delivery failure inside the loop propagates to the
outer `except Exception` handler, which logs it, attempts one fixed
termination notice (independent of the buffered payload, which is dropped),
and ends the worker: the session terminates instead of continuing. -/
theorem C5_delivery_failure_amended :
    ∀ (st st2 : StreamSt) (e : List Char),
      (onStreamException st e).1 = (onStreamException st2 e).1 ∧
      (onStreamException st e).1 = [streamTerminatedNotice e] ∧
      (onStreamException st e).2 = none :=
  fun _ _ _ => ⟨rfl, rfl, rfl⟩

/-- C1 counterexample: a schedule of the second-start path (main.py:316-327)
in which the old task's cancellation cleanup does not finish within the fixed
0.2 s grace sleep and the new task is scheduled first afterwards.  The new
session reaches `Running` before the old session reaches `Stopped`, so the
claimed synchronous awaited stop is false: the code cancels and sleeps but
never awaits the old task. -/
theorem C1_second_start_cex :
    secondStart (some false) false true =
      [StartEvent.cancelOld, StartEvent.createNew, StartEvent.newRunning,
        StartEvent.oldStopped] ∧
    ¬ ((secondStart (some false) false true).indexOf StartEvent.oldStopped <
        (secondStart (some false) false true).indexOf StartEvent.newRunning) := by
  refine ⟨rfl, ?_⟩
  decide

/-- C1 amended: on a second start request for the same chat, cancellation of
the old task is requested before the new session is created, exactly one new
session is created, and the old-before-new ordering holds exactly on those
schedules where the old task's cleanup completes within the 0.2 s grace
sleep; the registry write `active_streams[chat.id] = {...}` leaves exactly
one entry for that chat.  Completion of the old task is not awaited, so the
ordering is not guaranteed on other schedules. -/
theorem C1_second_start_amended :
    (∀ (e : Option Bool) (g n : Bool),
      (e = some false →
        (secondStart e g n).indexOf StartEvent.cancelOld <
          (secondStart e g n).indexOf StartEvent.createNew) ∧
      (secondStart e g n).count StartEvent.createNew = 1 ∧
      (e = some false → g = true →
        (secondStart e g n).indexOf StartEvent.oldStopped <
          (secondStart e g n).indexOf StartEvent.newRunning)) ∧
    (∀ (m : List (ℤ × ℤ)) (k v : ℤ),
      ((dictSet m k v).countP (fun p => decide (p.1 = k))) = 1) := by
  constructor
  · decide
  · intro m k v
    rw [dictSet, List.countP_cons]
    have hz : (m.filter (fun p => decide (p.1 ≠ k))).countP
        (fun p => decide (p.1 = k)) = 0 := by
      rw [List.countP_eq_zero]
      intro a ha
      have := (List.mem_filter.1 ha).2
      simp at this ⊢
      exact this
    rw [hz]
    simp

/-- Witness for the amended C1 at concrete inputs: with an active old task
and a schedule where its cleanup finishes inside the grace sleep, the old
stop precedes the new run; and a one-entry registry keeps exactly one entry
for the chat after replacement. -/
theorem C1_second_start_amended_witness :
    (secondStart (some false) true true).indexOf StartEvent.oldStopped <
      (secondStart (some false) true true).indexOf StartEvent.newRunning ∧
    ((dictSet [(1, 7)] 1 9).countP (fun p => decide (p.1 = 1))) = 1 :=
  ⟨(C1_second_start_amended.1 (some false) true true).2.2 rfl rfl,
   C1_second_start_amended.2 [(1, 7)] 1 9⟩

/-- C9 counterexample: the raw payload `b"a\n\nb"` decodes to `"a\n\nb"`,
survives `strip()` unchanged, and `splitlines()` then yields the lines
`"a"`, `""`, `"b"` — the interior blank line is pushed into the buffer
(main.py:277-282), contradicting the claim that every blank line is
discarded. -/
theorem C9_blank_lines_cex :
    processRaw [97, 10, 10, 98] = [['a'], [], ['b']] ∧
    [] ∈ processRaw [97, 10, 10, 98] := by
  have h : processRaw [97, 10, 10, 98] = [['a'], [], ['b']] := by
    simp [processRaw, pyDecodeReplace, stripWs]
    decide
  exact ⟨h, by rw [h]; simp⟩

/-- C9 amended: decoding is permissive and total (`pyDecodeReplace` replaces
invalid sequences rather than failing), and the blank-line handling is
`strip()`-shaped rather than per-line: a payload that decodes to pure
whitespace contributes no lines at all, and the last line contributed by any
payload is never blank (the stripped text cannot end in a newline) — but
interior blank lines are retained. -/
theorem C9_blank_lines_amended :
    (∀ raw : List Nat, (∀ c ∈ pyDecodeReplace raw, isPyWs c = true) →
      processRaw raw = []) ∧
    (∀ (raw : List Nat) (g : List Char),
      (processRaw raw).getLast? = some g → g ≠ []) := by
  constructor
  · intro raw hws
    rw [processRaw]
    have h1 : (pyDecodeReplace raw).dropWhile isPyWs = [] :=
      List.dropWhile_eq_nil_iff.2 hws
    simp [stripWs, h1]
  · intro raw g hg
    rw [processRaw] at hg
    by_cases hd : (stripWs (pyDecodeReplace raw)).isEmpty = true
    · rw [if_pos hd] at hg
      simp at hg
    · rw [if_neg hd] at hg
      have hne : stripWs (pyDecodeReplace raw) ≠ [] := by
        simpa [List.isEmpty_iff] using hd
      obtain ⟨c, hc⟩ : ∃ c, (stripWs (pyDecodeReplace raw)).getLast? = some c := by
        rcases hl : (stripWs (pyDecodeReplace raw)).getLast? with _ | c
        · exact absurd (List.getLast?_eq_none_iff.1 hl) hne
        · exact ⟨c, rfl⟩
      have hcw : isPyWs c = false := stripWs_getLast_not_ws hc
      have hcn : c ≠ '\n' := by
        intro h
        rw [h] at hcw
        simp [isPyWs] at hcw
      exact splitlinesAux_getLast_ne_nil (stripWs (pyDecodeReplace raw)) [] c hc hcn g hg

/-- Witness for the amended C9 at concrete inputs: the payload `b" \n\t"`
decodes to pure whitespace and contributes no lines, and the last line of
the payload `b"a\nb"` is the non-blank `"b"`. -/
theorem C9_blank_lines_amended_witness :
    ((∀ c ∈ pyDecodeReplace [32, 10, 9], isPyWs c = true) ∧
      processRaw [32, 10, 9] = []) ∧
    ((processRaw [97, 10, 98]).getLast? = some ['b'] ∧ (['b'] : List Char) ≠ []) :=
  ⟨⟨by simp [pyDecodeReplace]; decide,
    C9_blank_lines_amended.1 [32, 10, 9] (by simp [pyDecodeReplace]; decide)⟩,
   ⟨by simp [processRaw, pyDecodeReplace, stripWs]; decide,
    C9_blank_lines_amended.2 [97, 10, 98] ['b']
      (by simp [processRaw, pyDecodeReplace, stripWs]; decide)⟩⟩

/-- C3 counterexample: a single line of 3901 `'a'`s exceeds
`MAX_MESSAGE_CHUNK = 3900`.  `split_long_message` returns it unchanged as one
chunk: the chunk is over-size and carries no truncation marker, so the
claimed cap and hard-truncation are false at this input. -/
theorem C3_chunk_cap_cex :
    split_long_message (List.replicate 3901 'a') MAX_MESSAGE_CHUNK =
      [List.replicate 3901 'a'] ∧
    MAX_MESSAGE_CHUNK < (List.replicate 3901 'a').length := by
  have hlen : (List.replicate 3901 'a').length = 3901 := List.length_replicate 3901 'a'
  have hA : splitlines (List.replicate 3901 'a') = [List.replicate 3901 'a'] :=
    splitlines_no_nl _
      (fun c hc => by rw [List.eq_of_mem_replicate hc]; decide)
      (List.length_pos.1 (by rw [hlen]; norm_num))
  constructor
  · rw [split_long_message, MAX_MESSAGE_CHUNK, if_neg (by rw [hlen]; norm_num), hA]
    rw [chunksAux_cons, if_neg (fun h => h.2 rfl), chunksAux_nil,
      if_neg (fun h => Bool.noConfusion h)]
    rfl
  · rw [MAX_MESSAGE_CHUNK, hlen]
    norm_num

/-- C3 amended: every chunk produced by `split_long_message` either fits the
`max_chunk` cap or is a single original line of the input, passed through
verbatim (in particular, a line longer than the cap is emitted over-size and
unmarked, never cut mid-character). -/
theorem C3_chunk_cap_amended :
    ∀ (text : List Char) (max_chunk : Nat),
      ∀ c ∈ split_long_message text max_chunk,
        c.length ≤ max_chunk ∨ c ∈ splitlines text := by
  intro text max_chunk c hc
  rw [split_long_message] at hc
  by_cases hshort : text.length ≤ max_chunk
  · rw [if_pos hshort] at hc
    have : c = text := by simpa using hc
    exact Or.inl (this ▸ hshort)
  · rw [if_neg hshort] at hc
    have h0 : (0 : Nat) = curLenSum [] := rfl
    rw [h0] at hc
    exact chunksAux_chunk_bound max_chunk (splitlines text) (splitlines text) [] []
      (fun l hl => hl) (Or.inl rfl) (by simp) c hc

/-- Witness for the amended C3 at a concrete input: the first chunk of
splitting `"ab\ncd"` at cap 3 is `"ab"`, which fits the cap. -/
theorem C3_chunk_cap_amended_witness :
    ['a', 'b'] ∈ split_long_message ['a', 'b', '\n', 'c', 'd'] 3 ∧
    ((['a', 'b'] : List Char).length ≤ 3 ∨
      ['a', 'b'] ∈ splitlines ['a', 'b', '\n', 'c', 'd']) :=
  ⟨by decide, C3_chunk_cap_amended ['a', 'b', '\n', 'c', 'd'] 3 ['a', 'b'] (by decide)⟩

/-- C8 counterexample: the text of 3900 `'a'`s followed by two newlines has
line sequence `["a"*3900, ""]`, but rejoining the chunks produced by
`split_long_message` (the blank line is cut into its own chunk) yields the
line sequence `["a"*3900]`: the trailing blank line is lost, so concatenating
the chunks does not reconstruct the original line sequence for this input. -/
theorem C8_order_cex :
    splitlines (List.replicate 3900 'a' ++ ['\n', '\n']) =
      [List.replicate 3900 'a', []] ∧
    splitlines (joinNl (split_long_message
        (List.replicate 3900 'a' ++ ['\n', '\n']) MAX_MESSAGE_CHUNK)) =
      [List.replicate 3900 'a'] := by
  have hnn : ∀ c ∈ List.replicate 3900 'a', c ≠ '\n' :=
    fun c hc => by rw [List.eq_of_mem_replicate hc]; decide
  have hsplit : splitlines (List.replicate 3900 'a' ++ ['\n', '\n']) =
      [List.replicate 3900 'a', []] := by
    rw [splitlines_append_nl (List.replicate 3900 'a') hnn ['\n']]
    rfl
  have hlen : (List.replicate 3900 'a' ++ ['\n', '\n']).length = 3902 := by
    rw [List.length_append, List.length_replicate]
    rfl
  refine ⟨hsplit, ?_⟩
  rw [split_long_message, MAX_MESSAGE_CHUNK, if_neg (by rw [hlen]; norm_num), hsplit]
  have hgt : (0 + ((List.replicate 3900 'a').length + 1)) + (([] : List Char).length + 1) >
      3900 := by
    rw [List.length_replicate]
    decide
  have hchunks : chunksAux 3900 [List.replicate 3900 'a', []] [] 0 [] =
      [List.replicate 3900 'a', []] := by
    rw [chunksAux_cons, if_neg (fun h => h.2 rfl), chunksAux_cons,
      if_pos ⟨hgt, fun h => Bool.noConfusion h⟩, chunksAux_nil,
      if_neg (fun h => Bool.noConfusion h)]
    rfl
  rw [hchunks, joinNl_cons (List.replicate 3900 'a') [[]] (by simp)]
  rw [show joinNl [([] : List Char)] = [] from rfl]
  rw [splitlines_append_nl (List.replicate 3900 'a') hnn []]
  rfl

/-- C8 amended: whenever the input's line sequence does not end in a blank
line (true of every drained stream payload, whose last buffered line is
non-blank), rejoining the chunks of `split_long_message` with newlines
reproduces the original line sequence exactly — chunks split only at line
boundaries, keep every line in order, and nothing is reordered, duplicated
or (apart from the trailing-blank case excluded here) dropped. -/
theorem C8_order_amended :
    ∀ (text : List Char) (max_chunk : Nat),
      (splitlines text).getLast? ≠ some [] →
      splitlines (joinNl (split_long_message text max_chunk)) = splitlines text := by
  intro text max_chunk hlast
  rw [split_long_message]
  by_cases hshort : text.length ≤ max_chunk
  · rw [if_pos hshort]
    rfl
  · rw [if_neg hshort]
    obtain ⟨gs, hne, hflat, heq⟩ := chunksAux_partition max_chunk (splitlines text) [] 0 []
    rw [heq, List.nil_append, joinNl_flatten gs hne, hflat, List.nil_append]
    exact splitlines_joinNl (splitlines text) (splitlines_mem_no_nl text) hlast

/-- Witness for the amended C8 at a concrete input: `"ab\ncd"` at cap 3
splits into `["ab", "cd"]`, and rejoining gives back the line sequence
`["ab", "cd"]`. -/
theorem C8_order_amended_witness :
    (splitlines ['a', 'b', '\n', 'c', 'd']).getLast? ≠ some [] ∧
    splitlines (joinNl (split_long_message ['a', 'b', '\n', 'c', 'd'] 3)) =
      splitlines ['a', 'b', '\n', 'c', 'd'] :=
  ⟨by decide, C8_order_amended ['a', 'b', '\n', 'c', 'd'] 3 (by decide)⟩

end DockerBot

